import Mathlib

/- Shallow embedding of tool.py, a 7z compression-parameter search driver.
   Pure fragments of the Python become Lean functions; external effects (the
   du size probe, the compressor subprocess, the filesystem) become explicit
   parameters or state threaded through the definitions. -/

namespace Tool

/-- The `values['wordsize']` table (tool.py lines 16-20). -/
def wordsize : List Nat := [8, 12, 16, 24, 32, 48, 64, 96, 128, 192, 256, 273]

/-- The `values['dictsize']` table (tool.py lines 21-27). -/
def dictsize : List String :=
  ["64k", "1m", "2m", "3m", "4m", "6m", "8m", "12m", "16m", "24m",
   "32m", "48m", "64m", "96m", "128m", "192m", "256m", "384m", "512m",
   "768m", "1024m", "1536m"]

/-- The `values['blocksize']` table (tool.py lines 28-34). -/
def blocksize : List String :=
  ["=off", "=on", "1m", "2m", "3m", "4m", "6m", "8m", "12m", "16m",
   "32m", "64m", "128m", "256m", "512m", "1g", "2g", "4g", "8g",
   "16g", "32g", "64g"]

/-- `p` is an initial run of `l` (character-by-character comparison). -/
def headMatch : List Char → List Char → Bool
  | [], _ => true
  | _ :: _, [] => false
  | c :: cs, x :: xs => c = x && headMatch cs xs

/-- `p` occurs as a contiguous run inside `l`: the character-list reading of
    Python's substring containment operator. -/
def subListIn (p : List Char) : List Char → Bool
  | [] => p.isEmpty
  | c :: t => headMatch p (c :: t) || subListIn p t

/-- Python `sub in s` for strings. -/
def pyInStr (sub s : String) : Bool := subListIn sub.data s.data

/-- The numeric value of a decimal digit character, `none` otherwise. -/
def digitVal (c : Char) : Option Nat :=
  if '0' ≤ c ∧ c ≤ '9' then some (c.toNat - 48) else none

/-- Accumulator loop for reading a decimal numeral from characters. -/
def pyIntAux (acc : Nat) : List Char → Option Nat
  | [] => some acc
  | c :: t =>
    match digitVal c with
    | none => none
    | some d => pyIntAux (acc * 10 + d) t

/-- Python `int(x)` on a string of decimal digits (`none` on empty or
    non-digit input, where Python raises `ValueError`). -/
def pyIntChars : List Char → Option Nat
  | [] => none
  | c :: t => pyIntAux 0 (c :: t)

/-- Python `int(size[:-1])`: drop the final character and read the remainder
    as a number. Every entry of the candidate tables has a numeric head, so
    the `getD 0` fallback is never reached on a table entry. -/
def parseNum (s : String) : Nat := (pyIntChars s.data.dropLast).getD 0

/-- Python `s.endswith(c)` for a single-character suffix, read off the
    character list. -/
def endsWithChar (s : String) (c : Char) : Bool := s.data.getLast? = some c

/-- `minimumLargestDictSize` (tool.py lines 99-112), with the result of the
    `getLargestDirectorySize()` probe passed in as `largest`. Scans
    `dictsize`; for each entry containing the letter m, parses
    `int(size[:-1])` and returns it as soon as it exceeds `largest`.
    `none` models Python's implicit `return None` when no entry qualifies. -/
def minimumLargestDictSize (largest : Nat) : Option Nat :=
  dictsize.findSome? (fun s =>
    if pyInStr "m" s then
      if parseNum s > largest then some (parseNum s) else none
    else none)

/-- The loop of `testAllDictSizes` (tool.py lines 185-194). `measure`
    abstracts the effect pair `runCMD size; getTotalSizeOfArchives()`;
    the returned list is the `info` dict in insertion order. The guard
    `int(size[:-1]) > largestDictSize` is evaluated for every candidate,
    `'64k'` included; a `some []` tail models `break`. `none` models the
    `TypeError` Python raises when `largestDictSize` is `None` and the
    comparison `int > None` is attempted. -/
def dictLoop (bound : Option Nat) (measure : String → Nat) :
    List String → Option (List (String × Nat))
  | [] => some []
  | s :: rest =>
    match bound with
    | none => none
    | some b =>
      if parseNum s > b then some []
      else (dictLoop bound measure rest).map (fun t => (s, measure s) :: t)

/-- `testAllDictSizes` (tool.py lines 173-196), with the probe result passed
    in as `largest`. -/
def testAllDictSizes (largest : Nat) (measure : String → Nat) :
    Option (List (String × Nat)) :=
  dictLoop (minimumLargestDictSize largest) measure dictsize

/-- `minimumLargestBlockSize` (tool.py lines 115-127), with the probe result
    passed in as `largest`. Only entries ending in m or g are examined, the
    `largest < 1024` guard sits inside the loop, and the parse is
    `int(size[:-1])` — so `'1g'` parses as 1, not 1024. `none` models the
    implicit `return None`. -/
def minimumLargestBlockSize (largest : Nat) : Option Nat :=
  blocksize.findSome? (fun s =>
    if endsWithChar s 'm' || endsWithChar s 'g' then
      if largest < 1024 then
        if parseNum s > largest then some (parseNum s) else none
      else none
    else none)

/-- The loop of `testAllBlockSizes` (tool.py lines 218-228). Only candidates
    ending in m are tested against the bound; a `some []` tail models
    `break`, and `none` models the `TypeError` raised by `int > None` when
    the bound is `None`. -/
def blockLoop (bound : Option Nat) (measure : String → Nat) :
    List String → Option (List (String × Nat))
  | [] => some []
  | s :: rest =>
    if endsWithChar s 'm' then
      match bound with
      | none => none
      | some b =>
        if parseNum s > b then some []
        else (blockLoop bound measure rest).map (fun t => (s, measure s) :: t)
    else (blockLoop bound measure rest).map (fun t => (s, measure s) :: t)

/-- `testAllBlockSizes` (tool.py lines 213-230), with the probe result passed
    in as `largest`. -/
def testAllBlockSizes (largest : Nat) (measure : String → Nat) :
    Option (List (String × Nat)) :=
  blockLoop (minimumLargestBlockSize largest) measure blocksize

/-- The loop underlying Python `min(data, key=data.get)`: scan the entries in
    insertion order, replacing the current best only on a strictly smaller
    value, so the first entry attaining the minimum wins. -/
def minKeyLoop {α : Type} (best : α × Nat) : List (α × Nat) → α × Nat
  | [] => best
  | p :: rest => if p.2 < best.2 then minKeyLoop p rest else minKeyLoop best rest

/-- `smallestSize` (tool.py lines 130-135). The table is a Python dict,
    modelled as its insertion-ordered entry list (dict keys are unique and
    iterate in insertion order). `none` models the `ValueError` raised by
    `min` on an empty dict. -/
def smallestSize {α : Type} : List (α × Nat) → Option (α × Nat)
  | [] => none
  | p :: rest => some (minKeyLoop p rest)

/-- Python truthiness of an optional string argument (the `if dict_size:`
    guards, tool.py lines 151-161): `None` and the empty string are falsy. -/
def pyTruthyStr : Option String → Bool
  | none => false
  | some s => !s.data.isEmpty

/-- Python truthiness of an optional integer argument (`if word_size:`,
    `if threads:`): `None` and 0 are falsy. -/
def pyTruthyNat : Option Nat → Bool
  | none => false
  | some n => n != 0

/-- Python `cmd.index(x)`: position of the first occurrence. The source only
    indexes `'--'`, which is always present in the template, so the
    `ValueError` branch of the real method cannot arise. -/
def pyIndex (x : String) : List String → Nat
  | [] => 0
  | y :: ys => if y = x then 0 else pyIndex x ys + 1

/-- Python `cmd.insert(i, flag)`. -/
def pyInsert (l : List String) (i : Nat) (x : String) : List String :=
  l.take i ++ x :: l.drop i

/-- `cmd.insert(cmd.index('--'), flag)`, the insertion step used for each of
    the four optional flags (tool.py lines 151-165). -/
def insertFlag (cmd : List String) (flag : String) : List String :=
  pyInsert cmd (pyIndex "--" cmd) flag

/-- One optional-parameter step of the template construction: the guarded
    `if <param>: cmd.insert(cmd.index('--'), <flag>)` statement. -/
def addIf (cmd : List String) (c : Bool) (flag : String) : List String :=
  if c then insertFlag cmd flag else cmd

/-- The command template built by `runCMD` (tool.py lines 138-165) before the
    per-directory loop: start from `[binary, 'a', '-mx9', '--']` and insert
    each present parameter's flag in front of `'--'`, in the order dict,
    word, block, threads. `binary` abstracts `_7z_path` (tool.py line 9);
    integer parameters are rendered with `toString` as the f-strings do. -/
def buildCmd (binary : String) (d : Option String) (w : Option Nat)
    (b : Option String) (t : Option Nat) : List String :=
  addIf (addIf (addIf (addIf [binary, "a", "-mx9", "--"]
    (pyTruthyStr d) ("-md" ++ d.getD ""))
    (pyTruthyNat w) ("-mfb" ++ toString (w.getD 0)))
    (pyTruthyStr b) ("-ms" ++ b.getD ""))
    (pyTruthyNat t) ("-mmt" ++ toString (t.getD 0))

/-- The per-directory loop of `runCMD` (tool.py lines 167-170): extend the
    template with `['<dir>.7z', '<dir>']`, run it, then `del cmd[-2:]`.
    Returns the successive argument vectors passed to `subprocess.run`. -/
def runCmdLoop (cmd : List String) : List String → List (List String)
  | [] => []
  | dir :: rest =>
    let c := cmd ++ [dir ++ ".7z", dir]
    c :: runCmdLoop c.dropLast.dropLast rest

/-- The sequence of commands executed by one `runCMD` call over the
    directory listing `dirs`. -/
def runCMDCmds (binary : String) (d : Option String) (w : Option Nat)
    (b : Option String) (t : Option Nat) (dirs : List String) :
    List (List String) :=
  runCmdLoop (buildCmd binary d w b t) dirs

/-- The flag list as the spec's command contract states it (one flag per
    present parameter, in the order -md, -mfb, -ms, -mmt). Written from the
    spec's words, to be compared against `buildCmd`. -/
def specFlags (d : Option String) (w : Option Nat) (b : Option String)
    (t : Option Nat) : List String :=
  (if pyTruthyStr d then ["-md" ++ d.getD ""] else []) ++
  (if pyTruthyNat w then ["-mfb" ++ toString (w.getD 0)] else []) ++
  (if pyTruthyStr b then ["-ms" ++ b.getD ""] else []) ++
  (if pyTruthyNat t then ["-mmt" ++ toString (t.getD 0)] else [])

/-- Python `subprocess.run(args, check=check)` outcome, given the process
    exit code: it raises `CalledProcessError` (here `Except.error`) only when
    `check` is true and the exit code is non-zero. tool.py line 169 calls
    `subprocess.run(cmd, stdout=subprocess.DEVNULL)`, leaving `check` at its
    default `False`. -/
def subprocessRun (check : Bool) (exitCode : Int) : Except Int Unit :=
  if check ∧ exitCode ≠ 0 then Except.error exitCode else Except.ok ()

/-- Exception behaviour of the `runCMD` loop (tool.py lines 167-170): one
    `subprocess.run` per directory, the exit code of the compressor on
    directory `dir` given by `exitOf dir`, with `check` left `False` exactly
    as in the source. -/
def runCMDExcept (exitOf : String → Int) : List String → Except Int Unit
  | [] => Except.ok ()
  | dir :: rest =>
    match subprocessRun false (exitOf dir) with
    | Except.error e => Except.error e
    | Except.ok _ => runCMDExcept exitOf rest

/-- One sweep step as every sweep loop performs it (e.g. tool.py lines
    191-193): run the compressor over every directory, then record
    `info[size] = getTotalSizeOfArchives()`. The recorded value is whatever
    total the filesystem then holds (`sizeAfter`); it is recorded whenever
    the run loop raised no exception. -/
def sweepStepRecord (exitOf : String → Int) (dirs : List String)
    (sizeAfter : Nat) : Except Int Nat :=
  match runCMDExcept exitOf dirs with
  | Except.error e => Except.error e
  | Except.ok _ => Except.ok sizeAfter

/-- A top-level entry of the working directory: its name and whether it is a
    directory (otherwise a plain file). `Path().glob('*')` yields dot-entries
    too — which is why tool.py line 45 filters them explicitly — so the glob
    listing is the entry list itself. -/
structure Entry where
  name : String
  isDir : Bool
deriving DecidableEq

/-- Python `name.startswith('.')` read off the character list. -/
def startsWithDot (s : String) : Bool :=
  match s.data with
  | [] => false
  | c :: _ => c = '.'

/-- Python `name.endswith('.7z')` read off the character list. -/
def endsWith7z (s : String) : Bool := ['.', '7', 'z'].isSuffixOf s.data

/-- `directories()` (tool.py lines 38-47): every glob entry that is a
    directory, does not start with '.', and is not named exactly 'venv'. -/
def directoriesFS (fs : List Entry) : List String :=
  (fs.filter (fun e => e.isDir && !startsWithDot e.name && e.name != "venv")).map
    Entry.name

/-- `removeArchives()` (tool.py lines 50-56): unlink every plain file whose
    name ends in '.7z'. -/
def removeArchivesFS (fs : List Entry) : List Entry :=
  fs.filter (fun e => !(!e.isDir && endsWith7z e.name))

/-- The number of '.7z' plain files in the working directory. -/
def archiveCount (fs : List Entry) : Nat :=
  (fs.filter (fun e => !e.isDir && endsWith7z e.name)).length

/-- The filesystem states at which successive sweep candidates start, for a
    sweep loop shaped like tool.py lines 185-194 / 202-208 / 218-228 /
    242-248: run the compressor (`compress`), record the size, then
    `removeArchives()` before the next candidate. -/
def sweepStates (compress : List Entry → String → List Entry) :
    List String → List Entry → List (List Entry)
  | [], _ => []
  | c :: cs, fs => fs :: sweepStates compress cs (removeArchivesFS (compress fs c))

/-- `reversed(range(1, n + 1))` (tool.py line 242): the thread counts
    n, n-1, ..., 1 in descending order. -/
def threadCounts : Nat → List Nat
  | 0 => []
  | n + 1 => (n + 1) :: threadCounts n

/-- `testNThreads` (tool.py lines 233-250) with `os.cpu_count()` passed in as
    `n` and the measured totals abstracted as `measure`: the `info` dict in
    insertion order. -/
def testNThreads (n : Nat) (measure : Nat → Nat) : List (Nat × Nat) :=
  (threadCounts n).map (fun i => (i, measure i))

/-- The `sizes` dict built by `getLargestDirectorySize` (tool.py lines
    87-93), from the already-split `du -sm */` lines (megabyte size, path
    field with its trailing '/'): every line whose path field contains 'venv'
    as a substring is skipped; otherwise key = path minus its final
    character, value = the size. -/
def duSizes (lines : List (Nat × String)) : List (String × Nat) :=
  (lines.filter (fun q => !pyInStr "venv" q.2)).map
    (fun q => (⟨q.2.data.dropLast⟩, q.1))

/-- The loop underlying Python `max(sizes, key=sizes.get)`: first key of
    maximum value wins. -/
def maxKeyLoop {α : Type} (best : α × Nat) : List (α × Nat) → α × Nat
  | [] => best
  | p :: rest => if p.2 > best.2 then maxKeyLoop p rest else maxKeyLoop best rest

/-- `getLargestDirectorySize` (tool.py lines 72-96) with the du output passed
    in as parsed lines: the size stored under the maximal key. `none` models
    the `ValueError` of `max` on an empty dict. -/
def getLargestDirectorySizeFS (lines : List (Nat × String)) : Option Nat :=
  match duSizes lines with
  | [] => none
  | p :: rest => some (maxKeyLoop p rest).2

/- ------------------------------------------------------------------ -/
/- Theorems                                                            -/
/- ------------------------------------------------------------------ -/

/-- Helper: `subprocessRun` with `check = false` never raises. -/
theorem subprocessRun_no_check (e : Int) : subprocessRun false e = Except.ok () := by
  unfold subprocessRun
  simp

/-- Helper: the `runCMD` loop never raises, whatever the exit codes, since
    every `subprocess.run` call leaves `check` at `False`. -/
theorem runCMDExcept_ok (exitOf : String → Int) (dirs : List String) :
    runCMDExcept exitOf dirs = Except.ok () := by
  induction dirs with
  | nil => rfl
  | cons d rest ih => simp [runCMDExcept, subprocessRun_no_check, ih]

/-- C9: applied to an empty result table, `smallestSize` raises — `min` of an
    empty sequence, modelled as `none` — rather than returning any
    (candidate, size) pair or a default value. -/
theorem smallestSize_empty_raises :
    smallestSize ([] : List (String × Nat)) = none := rfl

/-- C1, evaluation at the failing input: with the largest directory size
    10 MB (the spec's own end-to-end example) the bound is 12, but the
    dictionary sweep's stop check parses `'64k'` as `int('64k'[:-1]) = 64`
    and `64 > 12` breaks the loop at once, so the sweep returns an empty
    table and `'64k'` is never run — against the claim that `'64k'` is
    always included and the sweep proceeds up to the first value exceeding
    the size. -/
theorem dictSweep_10MB_empty (f : String → Nat) :
    testAllDictSizes 10 f = some [] ∧ minimumLargestDictSize 10 = some 12 :=
  ⟨rfl, by decide⟩

/-- C3, evaluation at the failing input: with the largest directory size
    1024 MB, `minimumLargestBlockSize` returns `None` (the `< 1024` guard
    sits inside the loop, so no candidate is ever returned), and the
    block-size sweep then evaluates `int('1') > None` at candidate `'1m'`,
    raising `TypeError` (modelled as `none`) instead of iterating the whole
    22-candidate table. -/
theorem blockSweep_1024MB_crashes (f : String → Nat) :
    testAllBlockSizes 1024 f = none ∧ minimumLargestBlockSize 1024 = none :=
  ⟨rfl, by decide⟩

/-- C2, counterexample: with the largest directory size 500 MB, the
    candidate `'512m'` IS run by the block-size sweep — its entry is in the
    result table — contrary to the claim that the sweep stops before it. -/
theorem blockSweep_500MB_runs_512m :
    ("512m", (0 : Nat)) ∈ (testAllBlockSizes 500 (fun _ => 0)).getD [] := by
  decide

/-- C2, amended: with the largest directory size 500 MB the bound is 512
    (the first megabyte candidate value exceeding 500) and the stop check
    requires a megabyte-suffixed candidate strictly exceeding that bound, so
    `'256m'` and `'512m'` are both included and no candidate triggers the
    stop: the sweep runs the entire 22-entry block-size table. -/
theorem blockSweep_500MB_runs_all (f : String → Nat) :
    minimumLargestBlockSize 500 = some 512 ∧
    testAllBlockSizes 500 f = some (blocksize.map (fun s => (s, f s))) :=
  ⟨by decide, rfl⟩

/-- C4, counterexample: a compressor run that exits with code 1 for the only
    directory is not surfaced — the run loop returns normally — and the
    sweep step records a total size of 0 for that candidate. -/
theorem failedRun_records_zero :
    runCMDExcept (fun _ => 1) ["A"] = Except.ok () ∧
    sweepStepRecord (fun _ => 1) ["A"] 0 = Except.ok 0 :=
  ⟨rfl, rfl⟩

/-- C4, amended: non-zero compressor exit codes are never surfaced:
    `subprocess.run` is invoked without `check=True`, so for every exit-code
    assignment and every directory list the sweep step returns normally and
    records whatever total archive size the filesystem then holds — even a
    zero size after a failed run. -/
theorem sweepStep_ignores_exit_codes (exitOf : String → Int)
    (dirs : List String) (sizeAfter : Nat) :
    sweepStepRecord exitOf dirs sizeAfter = Except.ok sizeAfter := by
  unfold sweepStepRecord
  rw [runCMDExcept_ok]

/-- Helper: the running best of `minKeyLoop` bounds the result from above,
    and the result is a lower bound of every scanned entry. -/
theorem minKeyLoop_le {α : Type} (l : List (α × Nat)) :
    ∀ b : α × Nat, (minKeyLoop b l).2 ≤ b.2 ∧ ∀ q ∈ l, (minKeyLoop b l).2 ≤ q.2 := by
  induction l with
  | nil =>
    intro b
    exact ⟨Nat.le_refl _, fun q hq => absurd hq (List.not_mem_nil q)⟩
  | cons q rest ih =>
    intro b
    by_cases hq : q.2 < b.2
    · have h1 := ih q
      have hrw : minKeyLoop b (q :: rest) = minKeyLoop q rest := by
        simp only [minKeyLoop]
        rw [if_pos hq]
      rw [hrw]
      refine ⟨Nat.le_trans h1.1 (Nat.le_of_lt hq), ?_⟩
      intro r hr
      rcases List.mem_cons.mp hr with h | h
      · rw [h]; exact h1.1
      · exact h1.2 r h
    · have h1 := ih b
      have hrw : minKeyLoop b (q :: rest) = minKeyLoop b rest := by
        simp only [minKeyLoop]
        rw [if_neg hq]
      rw [hrw]
      refine ⟨h1.1, ?_⟩
      intro r hr
      rcases List.mem_cons.mp hr with h | h
      · rw [h]; exact Nat.le_trans h1.1 (Nat.le_of_not_lt hq)
      · exact h1.2 r h

/-- Helper: `minKeyLoop` returns an element of `best :: l`, and every entry
    strictly before it in that list has a strictly larger value — i.e. it is
    the first entry attaining the minimum, because the loop replaces the
    best only on a strict improvement. -/
theorem minKeyLoop_split {α : Type} (l : List (α × Nat)) :
    ∀ b : α × Nat, ∃ l1 l2, b :: l = l1 ++ minKeyLoop b l :: l2 ∧
      ∀ q ∈ l1, (minKeyLoop b l).2 < q.2 := by
  induction l with
  | nil =>
    intro b
    exact ⟨[], [], rfl, fun q hq => absurd hq (List.not_mem_nil q)⟩
  | cons q rest ih =>
    intro b
    by_cases hq : q.2 < b.2
    · obtain ⟨l1, l2, heq, hlt⟩ := ih q
      have hrw : minKeyLoop b (q :: rest) = minKeyLoop q rest := by
        simp only [minKeyLoop]
        rw [if_pos hq]
      rw [hrw]
      refine ⟨b :: l1, l2, ?_, ?_⟩
      · rw [List.cons_append, ← heq]
      · intro r hr
        rcases List.mem_cons.mp hr with h | h
        · rw [h]
          exact Nat.lt_of_le_of_lt (minKeyLoop_le rest q).1 hq
        · exact hlt r h
    · obtain ⟨l1, l2, heq, hlt⟩ := ih b
      have hrw : minKeyLoop b (q :: rest) = minKeyLoop b rest := by
        simp only [minKeyLoop]
        rw [if_neg hq]
      rw [hrw]
      cases l1 with
      | nil =>
        injection heq with h1 h2
        exact ⟨[], q :: rest, by rw [List.nil_append, ← h1], fun r hr =>
          absurd hr (List.not_mem_nil r)⟩
      | cons x l1t =>
        rw [List.cons_append] at heq
        injection heq with h1 h2
        have hmb : (minKeyLoop b rest).2 < b.2 := by
          have hx := hlt x (List.mem_cons_self x l1t)
          rw [← h1] at hx
          exact hx
        refine ⟨b :: q :: l1t, l2, ?_, ?_⟩
        · rw [List.cons_append, List.cons_append, ← h2]
        · intro r hr
          rcases List.mem_cons.mp hr with h | h
          · rw [h]; exact hmb
          · rcases List.mem_cons.mp h with h' | h'
            · rw [h']
              exact Nat.lt_of_lt_of_le hmb (Nat.le_of_not_lt hq)
            · exact hlt r (List.mem_cons_of_mem x h')

/-- C5: on every non-empty result table, `smallestSize` returns some entry
    `p` of the table whose size is ≤ every entry's size, and `p` is the
    first entry attaining that minimum in insertion order: the table splits
    as `l1 ++ p :: l2` with every entry of `l1` of strictly larger size. -/
theorem smallestSize_first_min {α : Type} (table : List (α × Nat))
    (h : table ≠ []) :
    ∃ p l1 l2, smallestSize table = some p ∧ table = l1 ++ p :: l2 ∧
      (∀ q ∈ table, p.2 ≤ q.2) ∧ ∀ q ∈ l1, p.2 < q.2 := by
  match table with
  | [] => exact absurd rfl h
  | b :: rest =>
    obtain ⟨l1, l2, heq, hlt⟩ := minKeyLoop_split rest b
    have hle := minKeyLoop_le rest b
    refine ⟨minKeyLoop b rest, l1, l2, rfl, heq, ?_, hlt⟩
    intro q hq
    rcases List.mem_cons.mp hq with h' | h'
    · rw [h']; exact hle.1
    · exact hle.2 q h'

/-- C5 witness: the concrete table `a ↦ 5, b ↦ 3, c ↦ 3` is non-empty, so the
    theorem applies; its minimum is 3 and the first entry attaining it is
    `b`. -/
theorem smallestSize_first_min_witness :
    ∃ p l1 l2,
      smallestSize [("a", 5), ("b", 3), ("c", 3)] = some p ∧
      [("a", 5), ("b", 3), ("c", 3)] = l1 ++ p :: l2 ∧
      (∀ q ∈ [("a", 5), ("b", 3), ("c", 3)], p.2 ≤ q.2) ∧
      ∀ q ∈ l1, p.2 < q.2 :=
  smallestSize_first_min [("a", 5), ("b", 3), ("c", 3)] (by decide)

/-- Helper: the thread-count list is strictly descending. -/
theorem threadCounts_descending (n : Nat) :
    List.Chain' (fun a b => b < a) (threadCounts n) := by
  induction n with
  | zero => exact List.chain'_nil
  | succ m ih =>
    cases m with
    | zero => exact List.chain'_singleton _
    | succ k =>
      exact List.chain'_cons.mpr ⟨Nat.lt_succ_self _, ih⟩

/-- Helper: the thread-count list holds exactly the counts 1..n. -/
theorem mem_threadCounts (n i : Nat) : i ∈ threadCounts n ↔ 1 ≤ i ∧ i ≤ n := by
  induction n with
  | zero =>
    simp only [threadCounts, List.not_mem_nil, false_iff]
    omega
  | succ m ih =>
    simp only [threadCounts, List.mem_cons, ih]
    omega

/-- Helper: when no scanned entry strictly improves on the current best,
    `minKeyLoop` keeps the current best. -/
theorem minKeyLoop_no_improve {α : Type} (l : List (α × Nat)) :
    ∀ b : α × Nat, (∀ q ∈ l, ¬ q.2 < b.2) → minKeyLoop b l = b := by
  induction l with
  | nil => intro b _; rfl
  | cons q rest ih =>
    intro b hb
    have hq : ¬ q.2 < b.2 := hb q (List.mem_cons_self q rest)
    have hrw : minKeyLoop b (q :: rest) = minKeyLoop b rest := by
      simp only [minKeyLoop]
      rw [if_neg hq]
    rw [hrw]
    exact ih b (fun r hr => hb r (List.mem_cons_of_mem q hr))

/-- C6: the thread-count sweep iterates exactly the counts n, n-1, ..., 1 of
    `reversed(range(1, cpu_count + 1))` — a strictly descending enumeration
    of 1..n — so when every thread count yields the same total archive size,
    `smallestSize` applied to the sweep's table returns the maximum thread
    count `n` (it is scanned first and no later entry strictly improves). -/
theorem threadSweep_tie_picks_max (n c : Nat) (measure : Nat → Nat)
    (hn : 0 < n) (hc : ∀ i ∈ threadCounts n, measure i = c) :
    (testNThreads n measure).map Prod.fst = threadCounts n ∧
    List.Chain' (fun a b => b < a) (threadCounts n) ∧
    (∀ i, i ∈ threadCounts n ↔ 1 ≤ i ∧ i ≤ n) ∧
    smallestSize (testNThreads n measure) = some (n, c) := by
  obtain ⟨m, rfl⟩ : ∃ m, n = m + 1 := ⟨n - 1, by omega⟩
  refine ⟨?_, threadCounts_descending _, fun i => mem_threadCounts _ i, ?_⟩
  · simp only [testNThreads, List.map_map]
    exact List.map_id _
  · have hbest : measure (m + 1) = c :=
      hc (m + 1) ((mem_threadCounts (m + 1) (m + 1)).mpr (by omega))
    show some (minKeyLoop ((m + 1), measure (m + 1))
      ((threadCounts m).map (fun i => (i, measure i)))) = some ((m + 1), c)
    rw [minKeyLoop_no_improve]
    · rw [hbest]
    · intro q hq
      obtain ⟨i, hi, rfl⟩ := List.mem_map.mp hq
      have hic : measure i = c := by
        refine hc i ((mem_threadCounts (m + 1) i).mpr ?_)
        have := (mem_threadCounts m i).mp hi
        omega
      simp only [hic, hbest]
      omega

/-- C6 witness: with 4 logical cores and a measurement that always returns
    100, the sweep's table is keyed 4, 3, 2, 1 and `smallestSize` picks
    thread count 4. -/
theorem threadSweep_tie_picks_max_witness :
    (testNThreads 4 (fun _ => 100)).map Prod.fst = threadCounts 4 ∧
    List.Chain' (fun a b => b < a) (threadCounts 4) ∧
    (∀ i, i ∈ threadCounts 4 ↔ 1 ≤ i ∧ i ≤ 4) ∧
    smallestSize (testNThreads 4 (fun _ => 100)) = some (4, 100) :=
  threadSweep_tie_picks_max 4 100 (fun _ => 100) (by decide) (fun _ _ => rfl)

/-- Helper: the first occurrence of `'--'` in `l ++ ['--']` is at position
    `l.length` when `'--'` does not occur in `l`. -/
theorem pyIndex_append_dash (l : List String) (h : "--" ∉ l) :
    pyIndex "--" (l ++ ["--"]) = l.length := by
  induction l with
  | nil => simp [pyIndex]
  | cons y ys ih =>
    have hy : ¬ (y = "--") := fun hh => h (hh ▸ List.mem_cons_self y ys)
    show (if y = "--" then 0 else pyIndex "--" (ys ++ ["--"]) + 1) = ys.length + 1
    rw [if_neg hy, ih (fun hm => h (List.mem_cons_of_mem y hm))]

/-- Helper: inserting at the index of `'--'` places the flag directly in
    front of the trailing `'--'`. -/
theorem insertFlag_before_dash (l : List String) (x : String) (h : "--" ∉ l) :
    insertFlag (l ++ ["--"]) x = l ++ [x, "--"] := by
  unfold insertFlag pyInsert
  rw [pyIndex_append_dash l h, List.take_left, List.drop_left]

/-- Helper: a string extending a 3-character head cannot equal `'--'`. -/
theorem long_ne_dash (pre s : String) (hp : 3 ≤ pre.data.length) :
    pre ++ s ≠ "--" := by
  intro h
  have h2 : (pre ++ s).data.length = ("--" : String).data.length := by rw [h]
  have h3 : ("--" : String).data.length = 2 := rfl
  rw [String.data_append, List.length_append, h3] at h2
  omega

/-- Helper: one guarded insertion keeps the `base ++ ['--']` shape,
    appending the flag to the non-dash part. -/
theorem addIf_shape (base : List String) (c : Bool) (x : String)
    (hbase : "--" ∉ base) (hx : x ≠ "--") :
    addIf (base ++ ["--"]) c x = (base ++ (if c then [x] else [])) ++ ["--"] ∧
      "--" ∉ base ++ (if c then [x] else []) := by
  cases c with
  | false =>
    refine ⟨by simp [addIf], ?_⟩
    simpa using hbase
  | true =>
    refine ⟨?_, ?_⟩
    · simp only [addIf, if_pos]
      rw [insertFlag_before_dash base x hbase]
      simp
    · intro hmem
      rcases (by simpa using hmem : "--" ∈ base ∨ "--" = x) with hm | hm
      · exact hbase hm
      · exact hx hm.symm

/-- Helper: the template equals `[binary, 'a', '-mx9'] ++ flags ++ ['--']`
    with one flag per present parameter, in the order -md, -mfb, -ms,
    -mmt — i.e. `buildCmd` refines `specFlags`. -/
theorem buildCmd_eq (binary : String) (d : Option String) (w : Option Nat)
    (b : Option String) (t : Option Nat) (hb : binary ≠ "--") :
    buildCmd binary d w b t =
      [binary, "a", "-mx9"] ++ specFlags d w b t ++ ["--"] := by
  have h0 : "--" ∉ [binary, "a", "-mx9"] := by
    intro hm
    rcases List.mem_cons.mp hm with h | hm2
    · exact hb h.symm
    · rcases List.mem_cons.mp hm2 with h | hm3
      · exact absurd h (by decide)
      · rcases List.mem_cons.mp hm3 with h | hm4
        · exact absurd h (by decide)
        · exact absurd hm4 (List.not_mem_nil _)
  have hmd : ("-md" ++ d.getD "") ≠ "--" := long_ne_dash _ _ (by decide)
  have hfb : ("-mfb" ++ toString (w.getD 0)) ≠ "--" := long_ne_dash _ _ (by decide)
  have hms : ("-ms" ++ b.getD "") ≠ "--" := long_ne_dash _ _ (by decide)
  have hmt : ("-mmt" ++ toString (t.getD 0)) ≠ "--" := long_ne_dash _ _ (by decide)
  obtain ⟨e1, n1⟩ := addIf_shape [binary, "a", "-mx9"] (pyTruthyStr d)
    ("-md" ++ d.getD "") h0 hmd
  obtain ⟨e2, n2⟩ := addIf_shape _ (pyTruthyNat w)
    ("-mfb" ++ toString (w.getD 0)) n1 hfb
  obtain ⟨e3, n3⟩ := addIf_shape _ (pyTruthyStr b)
    ("-ms" ++ b.getD "") n2 hms
  obtain ⟨e4, _⟩ := addIf_shape _ (pyTruthyNat t)
    ("-mmt" ++ toString (t.getD 0)) n3 hmt
  show addIf (addIf (addIf (addIf ([binary, "a", "-mx9"] ++ ["--"])
    (pyTruthyStr d) ("-md" ++ d.getD ""))
    (pyTruthyNat w) ("-mfb" ++ toString (w.getD 0)))
    (pyTruthyStr b) ("-ms" ++ b.getD ""))
    (pyTruthyNat t) ("-mmt" ++ toString (t.getD 0)) = _
  rw [e1, e2, e3, e4]
  unfold specFlags
  simp [List.append_assoc]

/-- Helper: removing the last two elements of `cmd ++ [x, y]` restores
    `cmd`, so the template survives each directory's `del cmd[-2:]`. -/
theorem dropLast_two (cmd : List String) (x y : String) :
    (cmd ++ [x, y]).dropLast.dropLast = cmd := by
  have h1 : cmd ++ [x, y] = (cmd ++ [x]) ++ [y] := by simp
  rw [h1, List.dropLast_concat, List.dropLast_concat]

/-- Helper: the per-directory loop issues, for each directory in order, the
    shared template extended with that directory's two arguments. -/
theorem runCmdLoop_map (cmd : List String) (dirs : List String) :
    runCmdLoop cmd dirs = dirs.map (fun dir => cmd ++ [dir ++ ".7z", dir]) := by
  induction dirs with
  | nil => rfl
  | cons dir rest ih =>
    show (cmd ++ [dir ++ ".7z", dir]) ::
        runCmdLoop ((cmd ++ [dir ++ ".7z", dir]).dropLast.dropLast) rest = _
    rw [dropLast_two, ih]
    rfl

/-- C7: for every parameter combination and every directory listing, the
    compression run executes exactly the commands `[binary, 'a', '-mx9',
    <one flag per present parameter in the order -md, -mfb, -ms, -mmt>,
    '--', '<dir>.7z', '<dir>']`, one per directory; since `del cmd[-2:]`
    removes exactly the two per-directory arguments, every directory
    receives the identical flag set. (`binary ≠ '--'` holds of the real
    `_7z_path`, a filesystem path.) -/
theorem runCMD_commands (binary : String) (d : Option String) (w : Option Nat)
    (b : Option String) (t : Option Nat) (dirs : List String)
    (hb : binary ≠ "--") :
    runCMDCmds binary d w b t dirs =
      dirs.map (fun dir =>
        [binary, "a", "-mx9"] ++ specFlags d w b t ++ ["--", dir ++ ".7z", dir]) := by
  unfold runCMDCmds
  rw [buildCmd_eq binary d w b t hb, runCmdLoop_map]
  refine List.map_congr_left ?_
  intro dir _
  simp

/-- C7 witness: with dict `4m`, word size 32, threads 4, block size absent,
    and directories `A`, `B`, the two executed commands carry the identical
    flag list `-md4m -mfb32 -mmt4`. -/
theorem runCMD_commands_witness :
    runCMDCmds "/usr/bin/7z" (some "4m") (some 32) none (some 4) ["A", "B"] =
      [["/usr/bin/7z", "a", "-mx9", "-md4m", "-mfb32", "-mmt4", "--", "A.7z", "A"],
       ["/usr/bin/7z", "a", "-mx9", "-md4m", "-mfb32", "-mmt4", "--", "B.7z", "B"]] := by
  rw [runCMD_commands "/usr/bin/7z" (some "4m") (some 32) none (some 4)
    ["A", "B"] (by decide)]
  rfl

/-- Helper: after `removeArchives()` runs, zero '.7z' files remain,
    whatever the working directory held. -/
theorem removeArchivesFS_clean (fs : List Entry) :
    archiveCount (removeArchivesFS fs) = 0 := by
  unfold archiveCount removeArchivesFS
  rw [List.filter_filter]
  simp

/-- C8: in every sweep loop the candidate states are seeded by the
    `removeArchives()` of `main` (tool.py line 254) and separated by the
    `removeArchives()` that follows each recorded measurement, and
    `removeArchives` deletes every '.7z' file — so whatever archives the
    compressor (`compress`) leaves behind, every state in which a candidate
    starts, the first included, holds zero '.7z' files. -/
theorem sweep_archive_hygiene (compress : List Entry → String → List Entry)
    (cands : List String) (fs0 : List Entry) :
    (∀ fs, archiveCount (removeArchivesFS fs) = 0) ∧
    ∀ s ∈ sweepStates compress cands (removeArchivesFS fs0),
      archiveCount s = 0 := by
  refine ⟨removeArchivesFS_clean, ?_⟩
  induction cands generalizing fs0 with
  | nil =>
    intro s hs
    exact absurd hs (List.not_mem_nil s)
  | cons c cs ih =>
    intro s hs
    rcases List.mem_cons.mp hs with h | h
    · rw [h]
      exact removeArchivesFS_clean fs0
    · exact ih (compress (removeArchivesFS fs0) c) s h

/-- C8 witness: a stale archive is cleared before the first candidate, and a
    compressor that drops one archive per run leaves none behind at each
    candidate boundary of a two-candidate sweep. -/
theorem sweep_archive_hygiene_witness :
    archiveCount (removeArchivesFS
      [Entry.mk "stale.7z" false, Entry.mk "A" true]) = 0 :=
  (sweep_archive_hygiene (fun fs c => Entry.mk (c ++ ".7z") false :: fs)
    ["64k", "1m"] [Entry.mk "stale.7z" false, Entry.mk "A" true]).2
    (removeArchivesFS [Entry.mk "stale.7z" false, Entry.mk "A" true])
    (by decide)

/-- Helper: a list that starts with `p` still does after appending. -/
theorem headMatch_append_right (p l t : List Char)
    (h : headMatch p l = true) : headMatch p (l ++ t) = true := by
  induction p generalizing l with
  | nil => rfl
  | cons c cs ih =>
    cases l with
    | nil => simp [headMatch] at h
    | cons x xs =>
      simp only [headMatch, List.cons_append, Bool.and_eq_true] at h ⊢
      exact ⟨h.1, ih xs h.2⟩

/-- Helper: the empty pattern occurs in every list. -/
theorem subListIn_nil (l : List Char) : subListIn [] l = true := by
  cases l with
  | nil => rfl
  | cons c t => simp [subListIn, headMatch]

/-- Helper: a substring occurrence survives appending on the right; in
    particular a name containing 'venv' still contains it with the du
    trailing '/' attached. -/
theorem subListIn_append (p l t : List Char) (h : subListIn p l = true) :
    subListIn p (l ++ t) = true := by
  induction l with
  | nil =>
    cases p with
    | nil => exact subListIn_nil t
    | cons c cs => simp [subListIn, List.isEmpty] at h
  | cons c ct ih =>
    simp only [subListIn, Bool.or_eq_true] at h
    rcases h with h | h
    · show (headMatch p (c :: ct ++ t) || subListIn p (ct ++ t)) = true
      rw [headMatch_append_right p (c :: ct) t h]
      rfl
    · show (headMatch p (c :: ct ++ t) || subListIn p (ct ++ t)) = true
      rw [ih h]
      simp

/-- C10: a directory entry whose name merely contains 'venv' (here as a
    general `d` with `d.name ≠ 'venv'`, not hidden) appears in the
    compression listing `directories()`, yet the du line for any path
    containing 'venv' as a substring — such as `d.name ++ '/'` — is skipped
    by the size probe, so it never contributes to the largest-directory-size
    bound: the probe's result is unchanged whether or not that line is
    present. -/
theorem venv_probe_vs_listing (entries : List Entry) (d : Entry)
    (lines lines2 : List (Nat × String)) (n : Nat)
    (hmem : d ∈ entries) (hdir : d.isDir = true)
    (hdot : startsWithDot d.name = false) (hname : d.name ≠ "venv")
    (hsub : pyInStr "venv" d.name = true) :
    d.name ∈ directoriesFS entries ∧
    getLargestDirectorySizeFS (lines ++ (n, d.name ++ "/") :: lines2) =
      getLargestDirectorySizeFS (lines ++ lines2) := by
  constructor
  · refine List.mem_map.mpr ⟨d, List.mem_filter.mpr ⟨hmem, ?_⟩, rfl⟩
    simp [hdir, hdot, hname]
  · have hslash : pyInStr "venv" (d.name ++ "/") = true := by
      unfold pyInStr at hsub ⊢
      rw [String.data_append]
      exact subListIn_append _ _ _ hsub
    have hdu : duSizes (lines ++ (n, d.name ++ "/") :: lines2) =
        duSizes (lines ++ lines2) := by
      unfold duSizes
      rw [List.filter_append, List.filter_append, List.filter_cons]
      simp [hslash]
    unfold getLargestDirectorySizeFS
    rw [hdu]

/-- C10 witness: the directory `my-venv` is listed for compression alongside
    `A`, but its 99 MB du line does not change the probe's answer (10, from
    `A`). -/
theorem venv_probe_vs_listing_witness :
    ("my-venv" : String) ∈ directoriesFS
      [Entry.mk "my-venv" true, Entry.mk "A" true] ∧
    getLargestDirectorySizeFS [(10, "A/"), (99, "my-venv/")] =
      getLargestDirectorySizeFS [(10, "A/")] :=
  venv_probe_vs_listing [Entry.mk "my-venv" true, Entry.mk "A" true]
    (Entry.mk "my-venv" true) [(10, "A/")] [] 99
    (by decide) rfl (by decide) (by decide) (by decide)

end Tool
